import Mathlib

/-!
Verification of the matrix-factorization recommender notebook (Unit 5:
model-based collaborative filtering for rating prediction) against its
natural-language specification.

The source is a Python/numpy notebook.  We embed it shallowly:
* numpy arrays of floats become lists of lists of rationals (`Mat`);
* numpy fancy indexing (gather, and in-place `-=` scatter) is modelled with
  numpy's exact index semantics: indices in `[0, L)` resolve directly,
  indices in `[-L, 0)` wrap to `L + i`, anything else raises `IndexError`
  (here `Err.indexOutOfRange`); an in-place `a[idx] -= v` gathers from the
  original array, subtracts, and scatter-assigns in order, so for duplicate
  indices the last write wins;
* fallible operations return `Except Err`;
* the seeded numpy / pandas pseudo-random streams are modelled by a concrete
  deterministic congruential generator — the claims settled here depend only
  on the streams being deterministic functions of the seed, never on the
  distribution of the draws.
-/

namespace RecSysMF

/-- Error taxonomy of the spec (section 7).  The source notebook itself never
raises these names; they stand for the Python exceptions that the modelled
numpy operations raise (IndexError, shape mismatch, ZeroDivisionError) plus
the spec-invented `invalidConfig` and `unknownUser`, which the theorems below
use to ask whether the code ever produces them. -/
inductive Err where
  | indexOutOfRange
  | dimensionMismatch
  | zeroDivision
  | invalidConfig
  | unknownUser
deriving DecidableEq, Repr

instance {e a : Type} [DecidableEq e] [DecidableEq a] : DecidableEq (Except e a) := fun x y =>
  match x, y with
  | .ok u, .ok v => if h : u = v then .isTrue (by simp [h]) else .isFalse (by simp [h])
  | .error u, .error v => if h : u = v then .isTrue (by simp [h]) else .isFalse (by simp [h])
  | .ok _, .error _ => .isFalse (by simp)
  | .error _, .ok _ => .isFalse (by simp)

/-- A row of a factor matrix: a d-dimensional vector of rationals. -/
abbrev Vec := List ℚ

/-- A dense factor matrix, row-indexed from 0 (as the numpy arrays are). -/
abbrev Mat := List Vec

/-- One (user, item, rating) triple, ids externally 1-based as in the
MovieLens data the notebook loads. -/
structure Rating where
  user : Int
  item : Int
  rating : ℚ
deriving DecidableEq, Repr

/-- Dot product, as `np.sum(u * v, axis=1)` computes it per row. -/
def dotQ (a b : Vec) : ℚ := (a.zipWith (fun x y => x * y) b).sum

/-- numpy index resolution for one axis of length `L`: indices in `[0, L)`
resolve directly, indices in `[-L, 0)` silently wrap to `L + i`, everything
else raises IndexError. -/
def resolveIdx (L : Nat) (i : Int) : Except Err Nat :=
  if 0 ≤ i ∧ i < (L : Int) then .ok i.toNat
  else if -(L : Int) ≤ i ∧ i < 0 then .ok ((L : Int) + i).toNat
  else .error .indexOutOfRange

/-- Resolve a whole index array, failing on the first out-of-range index. -/
def resolveAll (L : Nat) : List Int → Except Err (List Nat)
  | [] => .ok []
  | i :: is => do
    let r ← resolveIdx L i
    let rs ← resolveAll L is
    .ok (r :: rs)

/-- numpy fancy-index gather `M[idxs]`: the rows for the given (already
0-based) indices, in order; duplicates return duplicate rows. -/
def gatherRows (M : Mat) (idxs : List Int) : Except Err (List Vec) := do
  let rs ← resolveAll M.length idxs
  .ok (rs.map (fun r => M.getD r []))

/-- The source's gather `factors[ids - 1]` (part_001 lines 195-196): external
1-based ids are shifted by one and then fancy-indexed. -/
def gatherByIds (M : Mat) (ids : List Int) : Except Err (List Vec) :=
  gatherRows M (ids.map (fun i => i - 1))

/-- Elementwise subtraction of one matrix of rows from another, with numpy's
shape check: row counts and row widths must agree. -/
def subRows : List Vec → List Vec → Except Err (List Vec)
  | [], [] => .ok []
  | a :: as, b :: bs =>
    if a.length = b.length then do
      let rest ← subRows as bs
      .ok (a.zipWith (fun x y => x - y) b :: rest)
    else .error .dimensionMismatch
  | [], _ :: _ => .error .dimensionMismatch
  | _ :: _, [] => .error .dimensionMismatch

/-- numpy scatter-assign `M[idxs] = vals`, processed left to right: for
duplicate indices the last write wins. -/
def scatterAssign : Mat → List Nat → List Vec → Mat
  | M, i :: is, v :: vs => scatterAssign (M.set i v) is vs
  | M, [], _ => M
  | M, _ :: _, [] => M

/-- The in-place update `M[idxs] -= deltas` (part_001 lines 203-204): gather
the addressed rows from the original array, subtract the deltas elementwise,
then scatter-assign the results back.  Because the gather reads the original
array and the scatter-assign overwrites, duplicate indices do NOT accumulate:
only the delta of the last duplicate occurrence survives. -/
def fancySubAssign (M : Mat) (idxs : List Int) (deltas : List Vec) : Except Err Mat := do
  let rs ← resolveAll M.length idxs
  let rows := rs.map (fun r => M.getD r [])
  let written ← subRows rows deltas
  .ok (scatterAssign M rs written)

/-- Scalar-times-matrix `lr * grads`, elementwise as numpy broadcasts it. -/
def smulRows (lr : ℚ) (g : List Vec) : List Vec :=
  g.map (fun v => v.map (fun x => lr * x))

/-- The source's user-factor update line (part_001 line 203):
`user_factors[minibatch.user - 1] -= learning_rate * user_grads`.
The item update (line 204) is the same operation on the item matrix. -/
def userFactorUpdate (uf : Mat) (lr : ℚ) (userIds : List Int) (userGrads : List Vec) :
    Except Err Mat :=
  fancySubAssign uf (userIds.map (fun u => u - 1)) (smulRows lr userGrads)

/-- Follows the spec's words (sections 4.1 and 8, accumulation correctness):
the reference result of applying each per-instance delta separately in
sequence to the matrix, so that deltas of duplicate ids accumulate.  This is
the comparator the spec demands for the scatter update, not a translation of
the numpy code. -/
def seqFactorUpdate (lr : ℚ) : Mat → List Int → List Vec → Mat
  | M, u :: us, g :: gs =>
    let r := (u - 1).toNat
    seqFactorUpdate lr
      (M.set r ((M.getD r []).zipWith (fun x y => x - y) (g.map (fun x => lr * x)))) us gs
  | M, _, _ => M

/-- Modelled from the spec: `compute_gradients` is left as a task stub
(its body is `pass`) in the source notebook.  Spec section 4.2: per instance,
prediction = dot(user_vec, item_vec), error = true rating - prediction, user
gradient contribution = -2*error*item_vec, item gradient contribution =
-2*error*user_vec; gradients are per-instance, never pre-aggregated. -/
def compute_gradients (ratings : List ℚ) (u v : List Vec) : List Vec × List Vec :=
  let pairs := ratings.zip (u.zip v)
  (pairs.map (fun p => p.2.2.map (fun x => -2 * (p.1 - dotQ p.2.1 p.2.2) * x)),
   pairs.map (fun p => p.2.1.map (fun x => -2 * (p.1 - dotQ p.2.1 p.2.2) * x)))

/-- The source's `get_rmse` (part_001 lines 176-180) up to the final
`np.sqrt`: prediction per row is the dot product, error is rating minus
prediction, and the result is the mean of the squared errors.  The square
root is strictly monotone on nonnegatives, so every question settled below
about which rows the monitoring gathers is decided by this mean alone. -/
def getMSE (rating : List ℚ) (u v : List Vec) : ℚ :=
  let pred := (u.zip v).map (fun p => dotQ p.1 p.2)
  let error := rating.zipWith (fun a b => a - b) pred
  (error.map (fun e => e ^ 2)).sum / (error.length : ℚ)

/-- The monitoring block's held-out error (part_001 lines 210-212), sqrt
omitted as in `getMSE`.  Faithful to the source: BOTH factor matrices are
gathered with the test ratings' USER ids
(`item_factors[data.test_ratings.user.values - 1]` on line 212). -/
def mseTestCode (uf it : Mat) (test : List Rating) : Except Err ℚ := do
  let u ← gatherByIds uf (test.map (fun r => r.user))
  let v ← gatherByIds it (test.map (fun r => r.user))
  .ok (getMSE (test.map (fun r => r.rating)) u v)

/-- Follows the spec's words (section 9, suspected bug note): the same
held-out error with the item factor matrix gathered by the test ratings'
ITEM ids, which is what the spec says the computation must do. -/
def mseTestByItemIds (uf it : Mat) (test : List Rating) : Except Err ℚ := do
  let u ← gatherByIds uf (test.map (fun r => r.user))
  let v ← gatherByIds it (test.map (fun r => r.item))
  .ok (getMSE (test.map (fun r => r.rating)) u v)

/-- A linear congruential step; the concrete constants are irrelevant to
every claim, only determinism matters. -/
def lcg (s : Nat) : Nat := (1103515245 * s + 12345) % 2147483648

/-- The i-th state of the congruential stream started from `seed`. -/
def lcgIter (seed : Nat) : Nat → Nat
  | 0 => lcg (seed + 1)
  | k + 1 => lcg (lcgIter seed k)

/-- The i-th pseudo-random rational draw of the stream seeded by `seed`.
This stands in for the `np.random.seed(seed); np.random.normal(0, 1, ...)`
stream of the source (part_001 lines 110-112): a deterministic function of
the seed and the draw index.  The distribution of the draws is external
library behaviour and plays no role in any claim below. -/
def randQ (seed i : Nat) : ℚ := ((lcgIter seed i % 2001 : Nat) : ℚ) / 1000 - 1

/-- A `rows` by `cols` factor matrix filled from the seeded stream starting
at draw `offset`.  The source draws user factors first and item factors next
from the same stream, so the item matrix starts at offset `m * d`. -/
def initFactorsFrom (seed offset rows cols : Nat) : Mat :=
  (List.range rows).map (fun i =>
    (List.range cols).map (fun j => randQ seed (offset + i * cols + j)))

/-- Fuelled seeded shuffle: repeatedly pick the position selected by the
stream and move that element to the front of the result. -/
def shuffleGo (s : Nat) : Nat → List Rating → List Rating
  | 0, l => l
  | _, [] => []
  | fuel + 1, a :: l' =>
    let l := a :: l'
    let k := s % l.length
    l.getD k a :: shuffleGo (lcg s) fuel (l.eraseIdx k)

/-- Stand-in for `ratings.sample(frac=1, random_state=seed)` (part_001
line 113): a deterministic seeded permutation of the training ratings.
The exact permutation pandas computes is external library behaviour; the
claims below depend only on it being a permutation determined by the seed. -/
def shuffleSeed (seed : Nat) (l : List Rating) : List Rating :=
  shuffleGo (lcg seed) l.length l

/-- `num_batches = int(np.ceil(len(ratings) / batch_size))` (part_001
line 144). -/
def numBatches (bs len : Nat) : Nat := (len + bs - 1) / bs

/-- `minibatch = ratings.iloc[idx * batch_size : (idx + 1) * batch_size]`
(part_001 line 192). -/
def minibatchAt (ratings : List Rating) (bs idx : Nat) : List Rating :=
  (ratings.drop (idx * bs)).take bs

/-- The sequence of training instances consumed during epoch `e`: the
concatenation, in batch-index order, of the minibatches the epoch iterates
over.  Faithful to the source loop (part_001 lines 189-192): `ratings` is
shuffled once, before the epoch loop, with `random_state=seed`, and the
batch slicing inside the loop does not mention the epoch index at all. -/
def epochConsumedOrder (seed bs : Nat) (train : List Rating) (_e : Nat) : List Rating :=
  let ratings := shuffleSeed seed train
  ((List.range (numBatches bs ratings.length)).map
    (fun idx => minibatchAt ratings bs idx)).flatten

/-- The mutable state of the training loop: the two factor matrices and the
two append-only monitoring traces (part_001 lines 145-146). -/
structure TrainState where
  uf : Mat
  it : Mat
  rmseTrace : List ℚ
  rmseTestTrace : List ℚ
deriving DecidableEq, Repr

/-- The parameter-update core of one minibatch step (part_001 lines 194-204):
gather both embedding sets by `ids - 1`, compute the per-instance gradients,
and apply `factors[ids - 1] -= learning_rate * grads` to both matrices. -/
def updateStep (lr : ℚ) (uf it : Mat) (minibatch : List Rating) :
    Except Err (Mat × Mat) := do
  let uIdx := minibatch.map (fun r => r.user - 1)
  let iIdx := minibatch.map (fun r => r.item - 1)
  let userEmbeds ← gatherRows uf uIdx
  let itemEmbeds ← gatherRows it iIdx
  let g := compute_gradients (minibatch.map (fun r => r.rating)) userEmbeds itemEmbeds
  let uf' ← fancySubAssign uf uIdx (smulRows lr g.1)
  let it' ← fancySubAssign it iIdx (smulRows lr g.2)
  .ok (uf', it')

/-- One full iteration of the inner loop body (part_001 lines 190-215):
slice the minibatch, update the factors, and on the monitoring cadence
(`if not idx % 300`) append the batch error (computed from the embeddings
gathered BEFORE the update, as the source does) and the held-out error
(computed from the UPDATED factors via `mseTestCode`) to the traces.  The
source gathers the embeddings once and reuses them for the monitoring
print; re-gathering here returns the identical rows because the matrices
are only written after the gather. -/
def batchStep (lr : ℚ) (bs : Nat) (test ratings : List Rating) (st : TrainState)
    (idx : Nat) : Except Err TrainState := do
  let minibatch := minibatchAt ratings bs idx
  let p ← updateStep lr st.uf st.it minibatch
  if idx % 300 = 0 then
    let userEmbeds ← gatherRows st.uf (minibatch.map (fun r => r.user - 1))
    let itemEmbeds ← gatherRows st.it (minibatch.map (fun r => r.item - 1))
    let rmse := getMSE (minibatch.map (fun r => r.rating)) userEmbeds itemEmbeds
    let mtest ← mseTestCode p.1 p.2 test
    .ok ⟨p.1, p.2, st.rmseTrace ++ [rmse], st.rmseTestTrace ++ [mtest]⟩
  else
    .ok ⟨p.1, p.2, st.rmseTrace, st.rmseTestTrace⟩

/-- Run the loop body over a list of batch indices. -/
def runBatchList (lr : ℚ) (bs : Nat) (test ratings : List Rating) :
    List Nat → TrainState → Except Err TrainState
  | [], st => .ok st
  | idx :: rest, st => do
    let st' ← batchStep lr bs test ratings st idx
    runBatchList lr bs test ratings rest st'

/-- One epoch: the loop body for `idx in range(num_batches)`. -/
def runEpoch (lr : ℚ) (bs : Nat) (test ratings : List Rating) (st : TrainState) :
    Except Err TrainState :=
  runBatchList lr bs test ratings (List.range (numBatches bs ratings.length)) st

/-- `for epoch in range(epochs)` (part_001 line 189): the epochs run in
sequence over the same, once-shuffled `ratings`. -/
def runEpochs (lr : ℚ) (bs : Nat) (test ratings : List Rating) :
    Nat → TrainState → Except Err TrainState
  | 0, st => .ok st
  | e + 1, st => do
    let st' ← runEpoch lr bs test ratings st
    runEpochs lr bs test ratings e st'

/-- The whole training pipeline of the notebook (part_001 lines 110-113 and
140-215): seed the stream, draw the m-by-d user factors and then the n-by-d
item factors from it, shuffle the training ratings once with the seed, and
run the epoch loop from empty traces. -/
def fit (train test : List Rating) (m n d epochs bs : Nat) (lr : ℚ) (seed : Nat) :
    Except Err TrainState :=
  let uf0 := initFactorsFrom seed 0 m d
  let it0 := initFactorsFrom seed (m * d) n d
  let ratings := shuffleSeed seed train
  runEpochs lr bs test ratings epochs ⟨uf0, it0, [], []⟩

/-- Insert a scored item into a list sorted by descending score with ties
broken by ascending item id. -/
def insertPred (p : Int × ℚ) : List (Int × ℚ) → List (Int × ℚ)
  | [] => [p]
  | q :: l =>
    if p.2 > q.2 ∨ (p.2 = q.2 ∧ p.1 < q.1) then p :: q :: l else q :: insertPred p l

/-- Sort scored items by descending score, ties by ascending item id. -/
def sortPreds : List (Int × ℚ) → List (Int × ℚ)
  | [] => []
  | p :: l => insertPred p (sortPreds l)

/-- Modelled from the spec: the body of `get_prediction` is a task stub
(`pass`) in the source (part_001 lines 265-274); only its signature, default
arguments and expected output are given.  Spec section 4.4: score every item
row by the dot product of the user's and the item's latent vectors, when
`removeKnownPos` is set drop the ids in the user's known positives, return
the items sorted by descending score with ties broken by ascending item id,
and fail with `unknownUser` when the user id is outside the user matrix. -/
def get_prediction (user : Int) (knownPos : List Int) (uf it : Mat)
    (removeKnownPos : Bool) : Except Err (List (Int × ℚ)) :=
  if 1 ≤ user ∧ user ≤ (uf.length : Int) then
    let items := (List.range it.length).map (fun j => (j : Int) + 1)
    let cands := if removeKnownPos then items.filter (fun i => decide (i ∉ knownPos)) else items
    .ok (sortPreds (cands.map (fun i =>
      (i, dotQ (uf.getD (user - 1).toNat []) (it.getD (i - 1).toNat [])))))
  else .error .unknownUser

/-- The source's `get_recommendations` (part_001 lines 320-329): walk the
predictions in order, appending, and break as soon as the list reaches `N`;
that is, take the first `N` predictions (fewer when fewer exist, and never
an error on shortfall). -/
def get_recommendations (user : Int) (knownPos : List Int) (uf it : Mat) (N : Nat)
    (removeKnownPos : Bool) : Except Err (List (Int × ℚ)) := do
  let predictions ← get_prediction user knownPos uf it removeKnownPos
  .ok (predictions.take N)

/-- The recommendation order derived from a training outcome, for comparing
two runs. -/
def recommendationOrderOf (r : Except Err TrainState) (user : Int) (knownPos : List Int)
    (N : Nat) (removeKnownPos : Bool) : Except Err (List (Int × ℚ)) :=
  r.bind (fun st => get_recommendations user knownPos st.uf st.it N removeKnownPos)

/-- `np.intersect1d` (part_001 lines 387-388): the distinct common values of
the two lists.  numpy additionally sorts the result; only the element count
enters the precision computation, so the sort is omitted. -/
def intersect1d (a b : List Int) : List Int :=
  (a.filter (fun x => decide (x ∈ b))).dedup

/-- `prec_at_N[user] = len(hits) / N` (part_001 line 389), as a value: the
share of the recommended items that are relevant. -/
def precisionAtN (recs rel : List Int) (N : Int) : ℚ :=
  ((intersect1d recs rel).length : ℚ) / (N : ℚ)

/-- The same per-user precision as the Python expression evaluates it:
`len(hits) / N` raises ZeroDivisionError when `N = 0` and otherwise returns
the quotient (negative `N` is accepted and yields a negative value). -/
def precAtNVal (recs rel : List Int) (N : Int) : Except Err ℚ :=
  if N = 0 then .error .zeroDivision else .ok (precisionAtN recs rel N)

/-- Python dict assignment `d[k] = v` on an association list: overwrite the
existing entry for `k` if present, else append at the end (insertion
order). -/
def dictSet : List (Int × Option ℚ) → Int → ℚ → List (Int × Option ℚ)
  | [], k, v => [(k, some v)]
  | (a, w) :: d, k, v => if a = k then (a, some v) :: d else (a, w) :: dictSet d k v

/-- Ascending insertion into a sorted list of ids. -/
def insertInt (x : Int) : List Int → List Int
  | [] => [x]
  | y :: l => if x ≤ y then x :: y :: l else y :: insertInt x l

/-- Insertion sort on ids, standing in for the key order of a pandas
groupby. -/
def sortInts (l : List Int) : List Int := l.foldr insertInt []

/-- `get_relevant_items` from the evaluation module (part_000 lines 442ff,
imported by part_001): group the held-out ratings by user; each user found
in the test data maps to the list of their held-out items, and users with no
held-out rating are simply absent. -/
def get_relevant_items (test : List Rating) : List (Int × List Int) :=
  (sortInts (test.map (fun r => r.user)).dedup).map
    (fun u => (u, (test.filter (fun r => r.user = u)).map (fun r => r.item)))

/-- Items of the relevance set of one user (`relevant_items[user]`). -/
def lookupItems (relevant : List (Int × List Int)) (u : Int) : List Int :=
  ((relevant.find? (fun p => p.1 = u)).map (fun p => p.2)).getD []

/-- The evaluation loop of part_001 lines 384-389: for each user of the
relevance sets, compute the precision of their recommendations and store it
in the dict (`recsFor` abstracts the already-computed recommendation ids per
user). -/
def precLoop (recsFor : Int → List Int) (relevant : List (Int × List Int)) (N : Int) :
    List Int → List (Int × Option ℚ) → Except Err (List (Int × Option ℚ))
  | [], d => .ok d
  | u :: us, d => do
    let p ← precAtNVal (recsFor u) (lookupItems relevant u) N
    precLoop recsFor relevant N us (dictSet d u p)

/-- The full mean-precision computation of part_001 lines 381-389 and 407:
`prec_at_N = dict.fromkeys(data.users)` (every key `None`), the per-user
loop over `relevant_items.keys()`, then `np.mean` over the non-None values
(`np.mean` of an empty list is NaN, modelled as `none`). -/
def meanPrecAtN (allUsers : List Int) (recsFor : Int → List Int)
    (relevant : List (Int × List Int)) (N : Int) : Except Err (Option ℚ) := do
  let users := relevant.map (fun p => p.1)
  let d ← precLoop recsFor relevant N users (allUsers.dedup.map (fun u => (u, none)))
  let vals := d.filterMap (fun p => p.2)
  .ok (if vals.isEmpty then none else some (vals.sum / (vals.length : ℚ)))

/-! ## Theorems -/

/-- Claim C1.  The claim states that the factor update makes a row addressed
by duplicate ids reflect the SUM of all its per-instance deltas, equal to
applying each delta separately in sequence, excluding a last-write-wins
result.  The code violates this: on a 1-user, d = 1 matrix `[[0]]`, a batch
with user id 1 twice, learning rate 1 and per-instance gradients `[1]` and
`[2]`, the source's numpy update `user_factors[ids - 1] -= lr * grads`
leaves the row at `-2` (only the last duplicate's delta), while applying the
deltas in sequence — the accumulation the spec's own contract demands —
gives `-3`.  The code contradicts the notebook's stated intent (gradient
descent on the minibatch) and the spec's explicit contract, so this is a
code bug, exhibited here by evaluating both computations. -/
theorem claim1_duplicate_ids_last_write_wins :
    userFactorUpdate [[0]] 1 [1, 1] [[1], [2]] = .ok [[-2]] ∧
    seqFactorUpdate 1 [[0]] [1, 1] [[1], [2]] = [[-3]] ∧
    ([[-2]] : Mat) ≠ [[-3]] := by
  refine ⟨?_, ?_, ?_⟩
  · norm_num [userFactorUpdate, fancySubAssign, resolveAll, resolveIdx, smulRows, subRows,
      scatterAssign, bind, Except.bind]
  · norm_num [seqFactorUpdate]
  · norm_num

/-- Claim C2.  The claim states that the held-out monitoring error indexes
item factor rows by the test ratings' ITEM ids.  The code instead gathers
the item factor matrix with the test USER ids (part_001 line 212) — the
copy-paste defect the spec's section 9 flags.  With user factors
`[[1], [1]]`, item factors `[[2], [3]]` and the single test rating
(user 1, item 2, value 0), the code's computation uses item row 0 and yields
mean squared error 4, while indexing by item ids uses row 1 and yields 9:
a genuinely different monitoring value, so the code does not satisfy the
claim and the claim (the spec's stated intent) marks a code bug. -/
theorem claim2_test_rmse_indexes_item_factors_by_user_ids :
    mseTestCode [[1], [1]] [[2], [3]] [⟨1, 2, 0⟩] = .ok 4 ∧
    mseTestByItemIds [[1], [1]] [[2], [3]] [⟨1, 2, 0⟩] = .ok 9 ∧
    (4 : ℚ) ≠ 9 := by
  refine ⟨?_, ?_, by norm_num⟩ <;>
    norm_num [mseTestCode, mseTestByItemIds, gatherByIds, gatherRows, resolveAll, resolveIdx,
      getMSE, dotQ, bind, Except.bind]

/-- Claim C3, counterexample.  The claim states that each epoch's batch
order is a shuffle determined by the seed OFFSET BY THE EPOCH INDEX, so that
distinct epochs use distinct orders.  In the code the training ratings are
shuffled once, before the epoch loop, and every epoch consumes the same
order: on a two-element training set (whose reversal is a genuinely
different order, as the second conjunct shows) epochs 0 and 1 consume
identical sequences, refuting the claimed epoch-to-epoch distinctness. -/
theorem claim3_epoch_orders_identical_counterexample :
    epochConsumedOrder 42 1 [⟨1, 1, 1⟩, ⟨2, 2, 2⟩] 0 =
      epochConsumedOrder 42 1 [⟨1, 1, 1⟩, ⟨2, 2, 2⟩] 1 ∧
    (epochConsumedOrder 42 1 [⟨1, 1, 1⟩, ⟨2, 2, 2⟩] 0).reverse ≠
      epochConsumedOrder 42 1 [⟨1, 1, 1⟩, ⟨2, 2, 2⟩] 0 :=
  ⟨by decide, by decide⟩

/-- Claim C4, counterexample.  The claim states that an id outside `[1, m]`
— for example id 0 — makes the gather raise IndexOutOfRange and never
silently resolve to some other row.  On the 2-row matrix `[[1], [2]]`,
gathering id 0 computes numpy index `-1`, which numpy silently wraps to the
LAST row: the gather succeeds and returns row `[2]`, raising nothing. -/
theorem claim4_id_zero_silently_wraps_counterexample :
    gatherByIds [[1], [2]] [0] = .ok [[2]] ∧
    gatherByIds [[1], [2]] [0] ≠ .error Err.indexOutOfRange :=
  ⟨by rfl, by decide⟩

/-- Claim C5, counterexample.  The claim states that the mean-precision
computation fails with InvalidConfig when N ≤ 0 or the user set is empty.
The code performs no such validation: with an empty relevance-set user list
it returns the NaN-valued mean of an empty list (modelled `none`) rather
than failing, and with N = -1 it happily returns the (negative) mean -1.
Neither input produces any error, let alone InvalidConfig. -/
theorem claim5_no_invalid_config_counterexample :
    meanPrecAtN [1, 2] (fun _ => []) [] 10 = .ok none ∧
    meanPrecAtN [] (fun _ => [5]) [(1, [5])] (-1) = .ok (some (-1)) ∧
    (Except.ok (none : Option ℚ) : Except Err (Option ℚ)) ≠ .error Err.invalidConfig ∧
    (Except.ok (some (-1 : ℚ)) : Except Err (Option ℚ)) ≠ .error Err.invalidConfig := by
  refine ⟨by rfl, ?_, by decide, by decide⟩
  norm_num [meanPrecAtN, precLoop, precAtNVal, precisionAtN, intersect1d, lookupItems,
    dictSet, bind, Except.bind, List.find?, List.filter, List.dedup, List.filterMap]

/-- Inserting into the sorted prediction list permutes a cons. -/
theorem insertPred_perm (p : Int × ℚ) (l : List (Int × ℚ)) :
    (insertPred p l).Perm (p :: l) := by
  induction l with
  | nil => exact .refl _
  | cons q t ih =>
    rw [insertPred]
    split
    · exact .refl _
    · exact .trans (.cons q ih) (List.Perm.swap p q t)

/-- Sorting the predictions permutes them. -/
theorem sortPreds_perm (l : List (Int × ℚ)) : (sortPreds l).Perm l := by
  induction l with
  | nil => exact .refl _
  | cons p t ih => exact .trans (insertPred_perm p (sortPreds t)) (.cons p ih)

/-- Claim C6.  With `removeKnownPos` set, any successful recommendation list
contains no item from the user's known positives, has length at most `N`,
and its length is exactly the smaller of `N` and the number of eligible
items (all item ids minus the known positives), so a shortfall returns fewer
items with no error and no padding. -/
theorem claim6_recommend_excludes_known_positives (user : Int) (knownPos : List Int)
    (uf it : Mat) (N : Nat) (recs : List (Int × ℚ))
    (h : get_recommendations user knownPos uf it N true = .ok recs) :
    (∀ p ∈ recs, p.1 ∉ knownPos) ∧ recs.length ≤ N ∧
    recs.length = min N (((List.range it.length).map (fun j => (j : Int) + 1)).filter
      (fun i => decide (i ∉ knownPos))).length := by
  rw [get_recommendations, get_prediction] at h
  split at h
  · simp only [bind, Except.bind, Except.ok.injEq, if_true] at h
    subst h
    refine ⟨?_, ?_, ?_⟩
    · intro p hp
      have hmem := (sortPreds_perm _).subset (List.take_subset N _ hp)
      obtain ⟨i, hi, rfl⟩ := List.mem_map.mp hmem
      have hfil := (List.mem_filter.mp hi).2
      simpa using hfil
    · exact List.length_take_le N _
    · rw [List.length_take, (sortPreds_perm _).length_eq, List.length_map]
      rfl
  · simp [bind, Except.bind] at h

/-- Witness for claim C6: a concrete trained state (1 user, 3 items, known
positive item 2) in which asking for 2 recommendations with exclusion
succeeds, returns `[(3, 3), (1, 1)]`, omits item 2, and has length
`min 2 2`. -/
theorem claim6_recommend_excludes_known_positives_witness :
    (∀ p ∈ [((3 : Int), (3 : ℚ)), (1, 1)], p.1 ∉ [(2 : Int)]) ∧
    ([((3 : Int), (3 : ℚ)), (1, 1)]).length ≤ 2 ∧
    ([((3 : Int), (3 : ℚ)), (1, 1)]).length =
      min 2 (((List.range ([[1], [2], [3]] : Mat).length).map (fun j => (j : Int) + 1)).filter
        (fun i => decide (i ∉ ([2] : List Int)))).length :=
  claim6_recommend_excludes_known_positives 1 [2] [[1]] [[1], [2], [3]] 2 [(3, 3), (1, 1)]
    (by norm_num [get_recommendations, get_prediction, sortPreds, insertPred, dotQ,
      bind, Except.bind, List.filter, List.range, List.range.loop, List.getD,
      List.zipWith, List.sum, List.foldr, Int.toNat])

/-- Claim C7.  For a duplicate-free recommendation list of length at most
`N`, with `N > 0`, the per-user precision `len(intersect1d(recs, rel)) / N`
lies in `[0, 1]`; it is 0 when the recommendation and relevance lists are
disjoint, and 1 when the list has exactly `N` items all of which are
relevant (a relevance set of size at least `N` is then automatic, since the
`N` distinct recommended items all belong to it). -/
theorem claim7_precision_bounds (recs rel : List Int) (N : Int) (h1 : 0 < N)
    (h2 : recs.Nodup) (h3 : (recs.length : Int) ≤ N) :
    0 ≤ precisionAtN recs rel N ∧ precisionAtN recs rel N ≤ 1 ∧
    ((∀ x ∈ recs, x ∉ rel) → precisionAtN recs rel N = 0) ∧
    ((recs.length : Int) = N → (∀ x ∈ recs, x ∈ rel) → precisionAtN recs rel N = 1) := by
  have hNq : (0 : ℚ) < (N : ℚ) := by exact_mod_cast h1
  have hlen : (intersect1d recs rel).length ≤ recs.length :=
    Nat.le_trans (List.Sublist.length_le (List.dedup_sublist _))
      (List.Sublist.length_le (List.filter_sublist recs))
  refine ⟨?_, ?_, ?_, ?_⟩
  · exact div_nonneg (by positivity) (le_of_lt hNq)
  · rw [precisionAtN, div_le_one hNq]
    calc ((intersect1d recs rel).length : ℚ) ≤ (recs.length : ℚ) := by exact_mod_cast hlen
      _ ≤ (N : ℚ) := by exact_mod_cast h3
  · intro hdisj
    have : recs.filter (fun x => decide (x ∈ rel)) = [] := by
      rw [List.filter_eq_nil_iff]
      intro a ha
      simpa using hdisj a ha
    rw [precisionAtN, intersect1d, this]
    simp
  · intro hlenN hall
    have hfil : recs.filter (fun x => decide (x ∈ rel)) = recs := by
      rw [List.filter_eq_self]
      intro a ha
      simpa using hall a ha
    have hded : (recs.filter (fun x => decide (x ∈ rel))).dedup =
        recs.filter (fun x => decide (x ∈ rel)) :=
      List.dedup_eq_self.mpr (by rw [hfil]; exact h2)
    rw [precisionAtN, intersect1d, hded, hfil]
    rw [div_eq_one_iff_eq (ne_of_gt hNq)]
    exact_mod_cast hlenN

/-- Witness for claim C7: with recommendations `[1, 2]`, relevance list
`[2, 1]` and `N = 2`, the hypotheses hold and the precision is 1. -/
theorem claim7_precision_bounds_witness :
    0 ≤ precisionAtN [1, 2] [2, 1] 2 ∧ precisionAtN [1, 2] [2, 1] 2 ≤ 1 ∧
    ((∀ x ∈ ([1, 2] : List Int), x ∉ ([2, 1] : List Int)) →
      precisionAtN [1, 2] [2, 1] 2 = 0) ∧
    (((([1, 2] : List Int).length : Int) = 2) → (∀ x ∈ ([1, 2] : List Int),
      x ∈ ([2, 1] : List Int)) → precisionAtN [1, 2] [2, 1] 2 = 1) :=
  claim7_precision_bounds [1, 2] [2, 1] 2 (by decide) (by decide) (by decide)

/-- Resolving one index, specialised to each of numpy's three regimes. -/
theorem gatherByIds_single (M : Mat) (id : Int) :
    ((M.length : Int) < id → gatherByIds M [id] = .error Err.indexOutOfRange) ∧
    (id < 1 - (M.length : Int) → gatherByIds M [id] = .error Err.indexOutOfRange) ∧
    (1 ≤ id → id ≤ (M.length : Int) →
      gatherByIds M [id] = .ok [M.getD (id - 1).toNat []]) ∧
    (1 - (M.length : Int) ≤ id → id ≤ 0 →
      gatherByIds M [id] = .ok [M.getD ((M.length : Int) + id - 1).toNat []]) := by
  have key : ∀ r, resolveIdx M.length (id - 1) = .ok r →
      gatherByIds M [id] = .ok [M.getD r []] := by
    intro r hr
    simp [gatherByIds, gatherRows, resolveAll, hr, bind, Except.bind]
  have keyE : resolveIdx M.length (id - 1) = .error Err.indexOutOfRange →
      gatherByIds M [id] = .error Err.indexOutOfRange := by
    intro hr
    simp [gatherByIds, gatherRows, resolveAll, hr, bind, Except.bind]
  refine ⟨?_, ?_, ?_, ?_⟩
  · intro h
    apply keyE
    rw [resolveIdx, if_neg (by omega), if_neg (by omega)]
  · intro h
    apply keyE
    rw [resolveIdx, if_neg (by omega), if_neg (by omega)]
  · intro h1 h2
    apply key
    rw [resolveIdx, if_pos (by omega)]
  · intro h1 h2
    have heq : (M.length : Int) + (id - 1) = (M.length : Int) + id - 1 := by ring
    apply key
    rw [resolveIdx, if_neg (by omega), if_pos (by omega), heq]

/-- Claim C4, amended.  What the gather `factors[ids - 1]` actually does for
a single id against an `m`-row matrix: ids above `m` (and below `1 - m`)
raise IndexOutOfRange; ids in `[1, m]` resolve to row `id - 1`; but ids in
`[1 - m, 0]` — including id 0 — raise nothing and are silently resolved by
numpy's negative-index semantics to row `m + id - 1` (id 0 reads the last
row), which is exactly the silent mis-resolution the original claim
excludes. -/
theorem claim4_amended_numpy_index_semantics (M : Mat) (id : Int) :
    ((M.length : Int) < id → gatherByIds M [id] = .error Err.indexOutOfRange) ∧
    (id < 1 - (M.length : Int) → gatherByIds M [id] = .error Err.indexOutOfRange) ∧
    (1 ≤ id → id ≤ (M.length : Int) →
      gatherByIds M [id] = .ok [M.getD (id - 1).toNat []]) ∧
    (1 - (M.length : Int) ≤ id → id ≤ 0 →
      gatherByIds M [id] = .ok [M.getD ((M.length : Int) + id - 1).toNat []]) :=
  gatherByIds_single M id

/-- Witness for the amended claim C4, on the matrix `[[1], [2]]`: id 3
raises, id -2 raises, id 2 reads row 1, and id -1 silently reads row 0. -/
theorem claim4_amended_numpy_index_semantics_witness :
    gatherByIds [[1], [2]] [3] = .error Err.indexOutOfRange ∧
    gatherByIds [[1], [2]] [-2] = .error Err.indexOutOfRange ∧
    gatherByIds [[1], [2]] [2] = .ok [[2]] ∧
    gatherByIds [[1], [2]] [-1] = .ok [[1]] :=
  ⟨(claim4_amended_numpy_index_semantics [[1], [2]] 3).1 (by decide),
   (claim4_amended_numpy_index_semantics [[1], [2]] (-2)).2.1 (by decide),
   (claim4_amended_numpy_index_semantics [[1], [2]] 2).2.2.1 (by decide) (by decide),
   (claim4_amended_numpy_index_semantics [[1], [2]] (-1)).2.2.2 (by decide) (by decide)⟩

/-- Removing the picked element and putting it in front is a permutation. -/
theorem getD_cons_eraseIdx_perm (l : List Rating) (k : Nat) (d : Rating)
    (h : k < l.length) : (l.getD k d :: l.eraseIdx k).Perm l := by
  induction l generalizing k with
  | nil => simp at h
  | cons a t ih =>
    cases k with
    | zero => simp
    | succ k =>
      simp only [List.getD_cons_succ, List.eraseIdx_cons_succ]
      exact .trans (List.Perm.swap a _ _) (List.Perm.cons a (ih k (by simpa using h)))

/-- The fuelled seeded shuffle permutes its input. -/
theorem shuffleGo_perm (fuel : Nat) : ∀ (s : Nat) (l : List Rating),
    (shuffleGo s fuel l).Perm l := by
  induction fuel with
  | zero => intro s l; cases l <;> exact .refl _
  | succ fuel ih =>
    intro s l
    cases l with
    | nil => exact .refl []
    | cons a t =>
      rw [shuffleGo]
      exact .trans (List.Perm.cons _ (ih (lcg s) _))
        (getD_cons_eraseIdx_perm (a :: t) (s % (a :: t).length) a
          (Nat.mod_lt _ (by simp)))

/-- The seeded shuffle is a permutation of the training set. -/
theorem shuffleSeed_perm (seed : Nat) (l : List Rating) :
    (shuffleSeed seed l).Perm l :=
  shuffleGo_perm l.length (lcg seed) l

/-- The ceiling batch count covers the whole list. -/
theorem le_numBatches_mul (bs L : Nat) (hbs : 0 < bs) : L ≤ numBatches bs L * bs := by
  rcases Nat.eq_zero_or_pos L with h0 | hL
  · simp [h0]
  · have h1 := Nat.div_add_mod (L + bs - 1) bs
    have h2 : (L + bs - 1) % bs < bs := Nat.mod_lt _ hbs
    rw [numBatches]
    rw [Nat.mul_comm] at h1
    omega

/-- The first `k` batch slices concatenate to the first `k * bs` elements. -/
theorem flatten_batches_take (l : List Rating) (bs : Nat) : ∀ k : Nat,
    ((List.range k).map (fun idx => minibatchAt l bs idx)).flatten = l.take (k * bs) := by
  intro k
  induction k with
  | zero => simp
  | succ k ih =>
    rw [List.range_succ, List.map_append, List.flatten_append, ih]
    simp only [List.map_cons, List.map_nil, List.flatten_cons, List.flatten_nil,
      List.append_nil, minibatchAt]
    rw [Nat.succ_mul, List.take_add]

/-- Concatenating all the epoch's batch slices reproduces the list. -/
theorem flatten_batches (l : List Rating) (bs : Nat) (hbs : 0 < bs) :
    ((List.range (numBatches bs l.length)).map
      (fun idx => minibatchAt l bs idx)).flatten = l := by
  rw [flatten_batches_take]
  exact List.take_of_length_le (le_numBatches_mul bs l.length hbs)

/-- Claim C3, amended.  The order of training instances consumed in any
epoch is the SINGLE seeded shuffle of the training set performed before the
epoch loop: it is a permutation of the training set, it is the same list for
every pair of epochs (so runs with the same seed are reproducible, but
distinct epochs do NOT use distinct orders), and the epoch index never
enters the computation. -/
theorem claim3_amended_single_shuffle_every_epoch (seed bs : Nat) (train : List Rating)
    (e e2 : Nat) (hbs : 0 < bs) :
    epochConsumedOrder seed bs train e = epochConsumedOrder seed bs train e2 ∧
    epochConsumedOrder seed bs train e = shuffleSeed seed train ∧
    (shuffleSeed seed train).Perm train :=
  ⟨rfl, flatten_batches (shuffleSeed seed train) bs hbs, shuffleSeed_perm seed train⟩

/-- Witness for the amended claim C3 on a concrete two-element training set
with batch size 1: epochs 0 and 1 consume the same order, that order is the
seeded shuffle, and the shuffle permutes the training set. -/
theorem claim3_amended_single_shuffle_every_epoch_witness :
    epochConsumedOrder 42 1 [⟨1, 1, 1⟩, ⟨2, 2, 2⟩] 0 =
      epochConsumedOrder 42 1 [⟨1, 1, 1⟩, ⟨2, 2, 2⟩] 1 ∧
    epochConsumedOrder 42 1 [⟨1, 1, 1⟩, ⟨2, 2, 2⟩] 0 =
      shuffleSeed 42 [⟨1, 1, 1⟩, ⟨2, 2, 2⟩] ∧
    (shuffleSeed 42 [⟨1, 1, 1⟩, ⟨2, 2, 2⟩]).Perm [⟨1, 1, 1⟩, ⟨2, 2, 2⟩] :=
  claim3_amended_single_shuffle_every_epoch 42 1 [⟨1, 1, 1⟩, ⟨2, 2, 2⟩] 0 1 (by decide)

/-- Entries with another key survive a dict assignment. -/
theorem dictSet_mem_ne (d : List (Int × Option ℚ)) (k : Int) (v : ℚ) (u : Int)
    (w : Option ℚ) (hmem : (u, w) ∈ dictSet d k v) (hne : u ≠ k) : (u, w) ∈ d := by
  induction d with
  | nil =>
    rw [dictSet] at hmem
    simp only [List.mem_singleton, Prod.mk.injEq] at hmem
    exact absurd hmem.1 hne
  | cons p d ih =>
    obtain ⟨a, wa⟩ := p
    rw [dictSet] at hmem
    split at hmem
    · rcases List.mem_cons.mp hmem with h | h
      · simp only [Prod.mk.injEq] at h
        exact absurd (h.1.symm ▸ (by assumption : a = k)) (h.1 ▸ hne)
      · exact List.mem_cons_of_mem _ h
    · rcases List.mem_cons.mp hmem with h | h
      · exact h ▸ List.mem_cons_self _ _
      · exact List.mem_cons_of_mem _ (ih h)

/-- Assigning a value to a key whose entry (if any) is `None` adds exactly
that value to the dict's non-None values, up to permutation. -/
theorem dictSet_filterMap_perm (d : List (Int × Option ℚ)) (k : Int) (v : ℚ)
    (hnone : ∀ w, (k, w) ∈ d → w = none) :
    ((dictSet d k v).filterMap (fun p => p.2)).Perm
      (v :: d.filterMap (fun p => p.2)) := by
  induction d with
  | nil => rw [dictSet]; exact .refl _
  | cons p d ih =>
    obtain ⟨a, wa⟩ := p
    rw [dictSet]
    split
    · rename_i hak
      have hwa : wa = none := hnone wa (by rw [← hak]; exact List.mem_cons_self _ _)
      subst hwa
      simp only [List.filterMap_cons]
      exact .refl _
    · have hnone' : ∀ w, (k, w) ∈ d → w = none := fun w hw =>
        hnone w (List.mem_cons_of_mem _ hw)
      cases wa with
      | none =>
        simpa only [List.filterMap_cons] using ih hnone'
      | some x =>
        simp only [List.filterMap_cons]
        exact .trans (List.Perm.cons x (ih hnone')) (List.Perm.swap v x _)

/-- With a nonzero `N` the evaluation loop never raises and computes the
dict fold of the per-user precisions. -/
theorem precLoop_ok (recsFor : Int → List Int) (relevant : List (Int × List Int))
    (N : Int) (hN : N ≠ 0) : ∀ (us : List Int) (d : List (Int × Option ℚ)),
    precLoop recsFor relevant N us d = .ok (us.foldl
      (fun d u => dictSet d u (precisionAtN (recsFor u) (lookupItems relevant u) N)) d) := by
  intro us
  induction us with
  | nil => intro d; rfl
  | cons u us ih =>
    intro d
    rw [precLoop, precAtNVal, if_neg hN]
    simp only [bind, Except.bind]
    exact ih (dictSet d u _)

/-- Folding distinct users into a dict whose entries for them are all `None`
produces, as non-None values, exactly the per-user precisions (as a
permutation). -/
theorem foldl_dict_perm (prec : Int → ℚ) : ∀ (us : List Int)
    (d : List (Int × Option ℚ)), us.Nodup →
    (∀ u ∈ us, ∀ w, (u, w) ∈ d → w = none) →
    ((us.foldl (fun d u => dictSet d u (prec u)) d).filterMap (fun p => p.2)).Perm
      (us.map prec ++ d.filterMap (fun p => p.2)) := by
  intro us
  induction us with
  | nil => intro d _ _; exact .refl _
  | cons u us ih =>
    intro d hnd hnone
    rw [List.foldl_cons]
    have hnd' := (List.nodup_cons.mp hnd).2
    have hu := (List.nodup_cons.mp hnd).1
    have hnone' : ∀ u' ∈ us, ∀ w, (u', w) ∈ dictSet d u (prec u) → w = none := by
      intro u' hu' w hw
      have hne : u' ≠ u := fun heq => hu (heq ▸ hu')
      exact hnone u' (List.mem_cons_of_mem _ hu') w (dictSet_mem_ne d u (prec u) u' w hw hne)
    refine .trans (ih (dictSet d u (prec u)) hnd' hnone') ?_
    refine .trans (List.Perm.append_left (us.map prec)
      (dictSet_filterMap_perm d u (prec u)
        (fun w hw => hnone u (List.mem_cons_self _ _) w hw))) ?_
    rw [List.map_cons, List.cons_append]
    exact List.perm_middle

/-- The initial `dict.fromkeys(data.users)` has no non-None value. -/
theorem initDict_filterMap (allUsers : List Int) :
    ((allUsers.dedup.map (fun u => (u, (none : Option ℚ)))).filterMap
      (fun p => p.2)) = [] := by
  simp [List.filterMap_map, Function.comp]

/-- With `N = 0` the per-user loop raises ZeroDivisionError at the first
user it processes (`len(hits) / 0`). -/
theorem precLoop_zero (recsFor : Int → List Int) (relevant : List (Int × List Int))
    (u : Int) (us : List Int) (d : List (Int × Option ℚ)) :
    precLoop recsFor relevant 0 (u :: us) d = .error Err.zeroDivision := by
  rw [precLoop, precAtNVal, if_pos rfl]
  simp [bind, Except.bind]

/-- Claim C5, amended.  With the relevance-set users duplicate-free: for any
nonzero `N` the computation returns (without any error) the arithmetic mean
over exactly the per-user precision values that were computed — one per user
of the relevance sets, so users absent from the relevance sets contribute
nothing — and the NaN-valued mean of an empty list (modelled `none`) when
the user set is empty.  No `InvalidConfig` validation exists: with `N = 0`
and a nonempty user set the loop raises ZeroDivisionError at the first user
instead, while for an empty user set even `N = 0` raises nothing, as the
loop body never runs. -/
theorem claim5_amended_mean_over_computed (allUsers : List Int)
    (recsFor : Int → List Int) (relevant : List (Int × List Int)) (N : Int)
    (hnd : (relevant.map (fun p => p.1)).Nodup) :
    (N ≠ 0 → meanPrecAtN allUsers recsFor relevant N = .ok
      (if (relevant.map (fun p => p.1)).isEmpty then none
       else some (((relevant.map (fun p => p.1)).map
           (fun u => precisionAtN (recsFor u) (lookupItems relevant u) N)).sum /
         (((relevant.map (fun p => p.1)).length : ℚ))) )) ∧
    (relevant ≠ [] →
      meanPrecAtN allUsers recsFor relevant 0 = .error Err.zeroDivision) ∧
    meanPrecAtN allUsers recsFor [] 0 = .ok none := by
  refine ⟨?_, ?_, ?_⟩
  case refine_2 =>
    intro hrel
    obtain ⟨u, us, hu⟩ : ∃ u us, relevant.map (fun p => p.1) = u :: us := by
      cases hx : relevant.map (fun p => p.1) with
      | nil => exact absurd (List.map_eq_nil_iff.mp hx) hrel
      | cons u us => exact ⟨u, us, rfl⟩
    rw [meanPrecAtN, hu, precLoop_zero]
    simp [bind, Except.bind]
  case refine_3 =>
    rw [meanPrecAtN]
    simp [precLoop, bind, Except.bind, initDict_filterMap]
  intro hN
  have hperm : (((relevant.map (fun p => p.1)).foldl
      (fun d u => dictSet d u (precisionAtN (recsFor u) (lookupItems relevant u) N))
      (allUsers.dedup.map (fun u => (u, (none : Option ℚ))))).filterMap
        (fun p => p.2)).Perm
      ((relevant.map (fun p => p.1)).map
        (fun u => precisionAtN (recsFor u) (lookupItems relevant u) N)) := by
    have h0 := foldl_dict_perm
      (fun u => precisionAtN (recsFor u) (lookupItems relevant u) N)
      (relevant.map (fun p => p.1))
      (allUsers.dedup.map (fun u => (u, (none : Option ℚ)))) hnd
      (by
        intro u _ w hw
        obtain ⟨x, _, hx⟩ := List.mem_map.mp hw
        exact ((Prod.mk.injEq _ _ _ _).mp hx).2.symm)
    rwa [initDict_filterMap, List.append_nil] at h0
  rw [meanPrecAtN, precLoop_ok recsFor relevant N hN]
  simp only [bind, Except.bind, Except.ok.injEq]
  rcases eq_or_ne (relevant.map (fun p => p.1)) [] with hrel | hrel
  · rw [hrel] at hperm ⊢
    simp [initDict_filterMap]
  · have hmapne : (relevant.map (fun p => p.1)).map
        (fun u => precisionAtN (recsFor u) (lookupItems relevant u) N) ≠ [] := by
      simpa [List.map_eq_nil_iff] using hrel
    have hvalsne : (((relevant.map (fun p => p.1)).foldl
        (fun d u => dictSet d u (precisionAtN (recsFor u) (lookupItems relevant u) N))
        (allUsers.dedup.map (fun u => (u, (none : Option ℚ))))).filterMap
          (fun p => p.2)) ≠ [] := by
      intro h
      apply hmapne
      have hx : ((relevant.map (fun p => p.1)).map
          (fun u => precisionAtN (recsFor u) (lookupItems relevant u) N)).Perm [] := by
        rw [← h]
        exact hperm.symm
      exact hx.eq_nil
    rw [if_neg (by simpa [List.isEmpty_iff] using hvalsne),
      if_neg (by simpa [List.isEmpty_iff] using hrel)]
    rw [hperm.sum_eq, hperm.length_eq, List.length_map]

/-- Witness for the amended claim C5: two relevance-set users (one hit, one
miss) with N = 1 produce the mean over exactly the two computed values; the
same user set with N = 0 raises ZeroDivisionError; and the empty user set
with N = 0 returns the NaN-valued empty mean without error. -/
theorem claim5_amended_mean_over_computed_witness :
    (meanPrecAtN [1] (fun _ => [5]) [(1, [5]), (2, [7])] 1 = .ok
      (if (([(1, [5]), (2, [7])] : List (Int × List Int)).map (fun p => p.1)).isEmpty then none
       else some (((([(1, [5]), (2, [7])] : List (Int × List Int)).map (fun p => p.1)).map
           (fun u => precisionAtN ((fun _ => [5]) u)
             (lookupItems [(1, [5]), (2, [7])] u) 1)).sum /
         (((([(1, [5]), (2, [7])] : List (Int × List Int)).map
           (fun p => p.1)).length : ℚ))) )) ∧
    meanPrecAtN [1] (fun _ => [5]) [(1, [5]), (2, [7])] 0 = .error Err.zeroDivision ∧
    meanPrecAtN [1] (fun _ => [5]) [] 0 = .ok none :=
  ⟨(claim5_amended_mean_over_computed [1] (fun _ => [5]) [(1, [5]), (2, [7])] 1
      (by decide)).1 (by decide),
   (claim5_amended_mean_over_computed [1] (fun _ => [5]) [(1, [5]), (2, [7])] 0
      (by decide)).2.1 (by decide),
   (claim5_amended_mean_over_computed [1] (fun _ => [5]) [(1, [5]), (2, [7])] 0
      (by decide)).2.2⟩

/-- Inversion for a successful `Except` bind. -/
theorem except_bind_ok {α β : Type} {x : Except Err α} {f : α → Except Err β} {b : β}
    (h : (x >>= f) = .ok b) : ∃ a, x = .ok a ∧ f a = .ok b := by
  cases x with
  | error e => simp [bind, Except.bind] at h
  | ok a => exact ⟨a, rfl, by simpa [bind, Except.bind] using h⟩

/-- Subtracting an all-zero vector of the same length changes nothing. -/
theorem zipWith_sub_zeros : ∀ (a c : Vec), a.length = c.length →
    (∀ x ∈ c, x = (0 : ℚ)) → a.zipWith (fun x y => x - y) c = a := by
  intro a
  induction a with
  | nil => intro c _ _; simp
  | cons x xs ih =>
    intro c hlen hc
    cases c with
    | nil => simp at hlen
    | cons y ys =>
      simp only [List.zipWith_cons_cons]
      rw [hc y (List.mem_cons_self _ _), sub_zero,
        ih ys (by simpa using hlen) (fun z hz => hc z (List.mem_cons_of_mem _ hz))]

/-- A successful elementwise subtraction of all-zero rows returns the left
rows unchanged. -/
theorem subRows_all_zero : ∀ (rows c w : List Vec),
    (∀ v ∈ c, ∀ x ∈ v, x = (0 : ℚ)) → subRows rows c = .ok w → w = rows := by
  intro rows
  induction rows with
  | nil =>
    intro c w hc h
    cases c with
    | nil => rw [subRows] at h; simp only [Except.ok.injEq] at h; exact h.symm
    | cons b bs => rw [subRows] at h; simp at h
  | cons a as ih =>
    intro c w hc h
    cases c with
    | nil => rw [subRows] at h; simp at h
    | cons b bs =>
      rw [subRows] at h
      split at h
      · rename_i hlen
        obtain ⟨rest, hr, h⟩ := except_bind_ok h
        simp only [Except.ok.injEq] at h
        subst h
        rw [ih bs rest (fun v hv x hx => hc v (List.mem_cons_of_mem _ hv) x hx) hr,
          zipWith_sub_zeros a b hlen (hc b (List.mem_cons_self _ _))]
      · simp at h

/-- Writing a row's own value back is the identity. -/
theorem set_getD_self : ∀ (l : Mat) (i : Nat), l.set i (l.getD i []) = l := by
  intro l
  induction l with
  | nil => intro i; rfl
  | cons a t ih =>
    intro i
    cases i with
    | zero => simp
    | succ i =>
      simp only [List.getD_cons_succ, List.set_cons_succ]
      rw [ih i]

/-- Scatter-assigning every addressed row its own value is the identity. -/
theorem scatterAssign_self (M : Mat) : ∀ rs : List Nat,
    scatterAssign M rs (rs.map (fun r => M.getD r [])) = M := by
  intro rs
  induction rs with
  | nil => rfl
  | cons r rs ih =>
    rw [List.map_cons, scatterAssign, set_getD_self]
    exact ih

/-- Every row of a zero-scaled gradient is all zeros. -/
theorem smulRows_zero_mem (g : List Vec) :
    ∀ v ∈ smulRows 0 g, ∀ x ∈ v, x = (0 : ℚ) := by
  intro v hv x hx
  rw [smulRows] at hv
  obtain ⟨u, _, rfl⟩ := List.mem_map.mp hv
  obtain ⟨y, _, rfl⟩ := List.mem_map.mp hx
  exact zero_mul y

/-- A successful in-place `-=` with zero-scaled deltas leaves the matrix
unchanged. -/
theorem fancySubAssign_zero_smul (M : Mat) (idxs : List Int) (g : List Vec) (M' : Mat)
    (h : fancySubAssign M idxs (smulRows 0 g) = .ok M') : M' = M := by
  rw [fancySubAssign] at h
  cases hr : resolveAll M.length idxs with
  | error e => rw [hr] at h; simp [bind, Except.bind] at h
  | ok rs =>
    rw [hr] at h
    simp only [bind, Except.bind] at h
    cases hs : subRows (rs.map (fun r => M.getD r [])) (smulRows 0 g) with
    | error e => rw [hs] at h; simp at h
    | ok w =>
      rw [hs] at h
      simp only [Except.ok.injEq] at h
      rw [← h, subRows_all_zero _ _ w (smulRows_zero_mem g) hs, scatterAssign_self]

/-- With learning rate 0, a successful parameter-update step returns both
matrices unchanged. -/
theorem updateStep_zero (uf it : Mat) (mb : List Rating) (p : Mat × Mat)
    (h : updateStep 0 uf it mb = .ok p) : p = (uf, it) := by
  rw [updateStep] at h
  obtain ⟨ue, h1, h⟩ := except_bind_ok h
  obtain ⟨ie, h2, h⟩ := except_bind_ok h
  obtain ⟨uf', h3, h⟩ := except_bind_ok h
  obtain ⟨it', h4, h⟩ := except_bind_ok h
  simp only [Except.ok.injEq] at h
  rw [← h, fancySubAssign_zero_smul uf _ _ uf' h3,
    fancySubAssign_zero_smul it _ _ it' h4]

/-- With learning rate 0, a successful loop-body iteration (including its
monitoring branch) preserves both factor matrices. -/
theorem batchStep_zero (bs : Nat) (test ratings : List Rating) (st : TrainState)
    (idx : Nat) (st' : TrainState) (h : batchStep 0 bs test ratings st idx = .ok st') :
    st'.uf = st.uf ∧ st'.it = st.it := by
  rw [batchStep] at h
  obtain ⟨p, hp, h⟩ := except_bind_ok h
  have hpe := updateStep_zero _ _ _ _ hp
  split at h
  · obtain ⟨ue, hg1, h⟩ := except_bind_ok h
    obtain ⟨ie, hg2, h⟩ := except_bind_ok h
    obtain ⟨q, hm, h⟩ := except_bind_ok h
    simp only [Except.ok.injEq] at h
    rw [← h]
    exact ⟨by rw [hpe], by rw [hpe]⟩
  · simp only [Except.ok.injEq] at h
    rw [← h]
    exact ⟨by rw [hpe], by rw [hpe]⟩

/-- With learning rate 0, any successful run over a list of batch indices
preserves both factor matrices. -/
theorem runBatchList_zero (bs : Nat) (test ratings : List Rating) :
    ∀ (idxs : List Nat) (st st' : TrainState),
    runBatchList 0 bs test ratings idxs st = .ok st' →
    st'.uf = st.uf ∧ st'.it = st.it := by
  intro idxs
  induction idxs with
  | nil =>
    intro st st' h
    rw [runBatchList] at h
    simp only [Except.ok.injEq] at h
    rw [← h]
    exact ⟨rfl, rfl⟩
  | cons idx rest ih =>
    intro st st' h
    rw [runBatchList] at h
    obtain ⟨st1, hb, h⟩ := except_bind_ok h
    have h1 := batchStep_zero bs test ratings st idx st1 hb
    have h2 := ih st1 st' h
    exact ⟨h2.1.trans h1.1, h2.2.trans h1.2⟩

/-- With learning rate 0, any successful multi-epoch run preserves both
factor matrices. -/
theorem runEpochs_zero (bs : Nat) (test ratings : List Rating) :
    ∀ (epochs : Nat) (st st' : TrainState),
    runEpochs 0 bs test ratings epochs st = .ok st' →
    st'.uf = st.uf ∧ st'.it = st.it := by
  intro epochs
  induction epochs with
  | zero =>
    intro st st' h
    rw [runEpochs] at h
    simp only [Except.ok.injEq] at h
    rw [← h]
    exact ⟨rfl, rfl⟩
  | succ e ih =>
    intro st st' h
    rw [runEpochs] at h
    obtain ⟨st1, he, h⟩ := except_bind_ok h
    have h1 := runBatchList_zero bs test ratings _ st st1 he
    have h2 := ih st1 st' h
    exact ⟨h2.1.trans h1.1, h2.2.trans h1.2⟩

/-- Claim C8.  With learning rate 0, any successful training run — any
number of epochs, any batch size, monitoring included — leaves every row of
both factor matrices exactly (bit-for-bit, here: as equal rationals) at its
initialized value. -/
theorem claim8_zero_learning_rate_noop (train test : List Rating)
    (m n d epochs bs seed : Nat) (st' : TrainState)
    (h : fit train test m n d epochs bs 0 seed = .ok st') :
    st'.uf = initFactorsFrom seed 0 m d ∧ st'.it = initFactorsFrom seed (m * d) n d := by
  rw [fit] at h
  exact runEpochs_zero bs test (shuffleSeed seed train) epochs _ st' h

/-- Witness for claim C8: a concrete one-epoch, one-rating run with
learning rate 0 succeeds (its traces record the monitoring values) and its
factor matrices equal the initialized ones. -/
theorem claim8_zero_learning_rate_noop_witness :
    (TrainState.mk [[-449/500]] [[-31/1000]] [236274738561/250000000000]
      [236274738561/250000000000]).uf = initFactorsFrom 0 0 1 1 ∧
    (TrainState.mk [[-449/500]] [[-31/1000]] [236274738561/250000000000]
      [236274738561/250000000000]).it = initFactorsFrom 0 (1 * 1) 1 1 :=
  claim8_zero_learning_rate_noop [⟨1, 1, 1⟩] [⟨1, 1, 1⟩] 1 1 1 1 1 0
    (TrainState.mk [[-449/500]] [[-31/1000]] [236274738561/250000000000]
      [236274738561/250000000000])
    (by norm_num [fit, runEpochs, runEpoch, runBatchList, batchStep, updateStep, gatherRows,
      gatherByIds, resolveAll, resolveIdx, compute_gradients, dotQ, fancySubAssign, subRows,
      scatterAssign, smulRows, getMSE, mseTestCode, minibatchAt, numBatches, shuffleSeed,
      shuffleGo, lcg, lcgIter, randQ, initFactorsFrom, bind, Except.bind, List.range,
      List.range.loop, List.eraseIdx])

/-- All-in-range indices resolve to their own (0-based) values. -/
theorem resolveAll_valid (L : Nat) : ∀ (ids : List Int),
    (∀ i ∈ ids, 0 ≤ i ∧ i < (L : Int)) →
    resolveAll L ids = .ok (ids.map Int.toNat) := by
  intro ids
  induction ids with
  | nil => intro _; rfl
  | cons i is ih =>
    intro h
    rw [resolveAll,
      show resolveIdx L i = .ok i.toNat from by
        rw [resolveIdx, if_pos (h i (List.mem_cons_self _ _))],
      ih (fun j hj => h j (List.mem_cons_of_mem _ hj))]
    simp [bind, Except.bind]

/-- Setting one row leaves every other row unchanged. -/
theorem set_getD_ne : ∀ (l : Mat) (i k : Nat) (v : Vec), i ≠ k →
    (l.set i v).getD k [] = l.getD k [] := by
  intro l
  induction l with
  | nil => intro i k v _; rfl
  | cons a t ih =>
    intro i k v hne
    cases i with
    | zero =>
      cases k with
      | zero => exact absurd rfl hne
      | succ k => simp
    | succ i =>
      cases k with
      | zero => simp
      | succ k =>
        simp only [List.set_cons_succ, List.getD_cons_succ]
        exact ih i k v (fun h => hne (by rw [h]))

/-- A scatter-assign leaves every row it never addresses unchanged. -/
theorem scatterAssign_getD_not_mem (k : Nat) : ∀ (rs : List Nat) (M : Mat)
    (vs : List Vec), k ∉ rs → (scatterAssign M rs vs).getD k [] = M.getD k [] := by
  intro rs
  induction rs with
  | nil => intro M vs _; cases vs <;> rfl
  | cons r rs ih =>
    intro M vs hk
    cases vs with
    | nil => rfl
    | cons v vs =>
      rw [scatterAssign, ih (M.set r v) vs (fun h => hk (List.mem_cons_of_mem _ h))]
      exact set_getD_ne M r k v (fun h => hk (h ▸ List.mem_cons_self _ _))

/-- A successful in-place `-=` with all indices in range writes only the
addressed rows: every other row is unchanged. -/
theorem fancySubAssign_frame (M : Mat) (idxs : List Int) (deltas : List Vec) (M' : Mat)
    (hvalid : ∀ i ∈ idxs, 0 ≤ i ∧ i < (M.length : Int))
    (h : fancySubAssign M idxs deltas = .ok M') (k : Nat) (hk : (k : Int) ∉ idxs) :
    M'.getD k [] = M.getD k [] := by
  rw [fancySubAssign] at h
  obtain ⟨rs, hr, h⟩ := except_bind_ok h
  obtain ⟨w, hw, h⟩ := except_bind_ok h
  simp only [Except.ok.injEq] at h
  rw [resolveAll_valid M.length idxs hvalid] at hr
  simp only [Except.ok.injEq] at hr
  subst hr
  rw [← h]
  apply scatterAssign_getD_not_mem
  intro hmem
  obtain ⟨i, hi, hik⟩ := List.mem_map.mp hmem
  apply hk
  have hki : (k : Int) = i := by
    rw [← hik]
    exact Int.toNat_of_nonneg (hvalid i hi).1
  rw [hki]
  exact hi

/-- Claim C10.  A successful loop-body iteration writes only the factor rows
addressed by the batch: its matrices are exactly those of the parameter
update alone (so the monitoring branch writes no factor row), the user row
of every index `k` with `k + 1` not among the batch's user ids is unchanged,
and likewise for item rows. -/
theorem claim10_batch_update_frame (lr : ℚ) (bs idx : Nat) (test ratings : List Rating)
    (st st' : TrainState) (k j : Nat)
    (hids : ∀ r ∈ minibatchAt ratings bs idx,
      1 ≤ r.user ∧ r.user ≤ (st.uf.length : Int) ∧
      1 ≤ r.item ∧ r.item ≤ (st.it.length : Int))
    (h : batchStep lr bs test ratings st idx = .ok st')
    (hku : ((k : Int) + 1) ∉ (minibatchAt ratings bs idx).map (fun r => r.user))
    (hji : ((j : Int) + 1) ∉ (minibatchAt ratings bs idx).map (fun r => r.item)) :
    updateStep lr st.uf st.it (minibatchAt ratings bs idx) = .ok (st'.uf, st'.it) ∧
    st'.uf.getD k [] = st.uf.getD k [] ∧
    st'.it.getD j [] = st.it.getD j [] := by
  rw [batchStep] at h
  obtain ⟨p, hp, h⟩ := except_bind_ok h
  have hst : st'.uf = p.1 ∧ st'.it = p.2 := by
    split at h
    · obtain ⟨ue, hg1, h⟩ := except_bind_ok h
      obtain ⟨ie, hg2, h⟩ := except_bind_ok h
      obtain ⟨q, hm, h⟩ := except_bind_ok h
      simp only [Except.ok.injEq] at h
      rw [← h]
      exact ⟨rfl, rfl⟩
    · simp only [Except.ok.injEq] at h
      rw [← h]
      exact ⟨rfl, rfl⟩
  have hp0 := hp
  rw [updateStep] at hp
  obtain ⟨ue, h1, hp⟩ := except_bind_ok hp
  obtain ⟨ie, h2, hp⟩ := except_bind_ok hp
  obtain ⟨uf', h3, hp⟩ := except_bind_ok hp
  obtain ⟨it', h4, hp⟩ := except_bind_ok hp
  simp only [Except.ok.injEq] at hp
  have hvu : ∀ i ∈ (minibatchAt ratings bs idx).map (fun r => r.user - 1),
      0 ≤ i ∧ i < (st.uf.length : Int) := by
    intro i hi
    obtain ⟨r, hr, rfl⟩ := List.mem_map.mp hi
    have := hids r hr
    omega
  have hvi : ∀ i ∈ (minibatchAt ratings bs idx).map (fun r => r.item - 1),
      0 ≤ i ∧ i < (st.it.length : Int) := by
    intro i hi
    obtain ⟨r, hr, rfl⟩ := List.mem_map.mp hi
    have := hids r hr
    omega
  have hku' : (k : Int) ∉ (minibatchAt ratings bs idx).map (fun r => r.user - 1) := by
    intro hmem
    obtain ⟨r, hr, heq⟩ := List.mem_map.mp hmem
    exact hku (List.mem_map.mpr ⟨r, hr, by omega⟩)
  have hji' : (j : Int) ∉ (minibatchAt ratings bs idx).map (fun r => r.item - 1) := by
    intro hmem
    obtain ⟨r, hr, heq⟩ := List.mem_map.mp hmem
    exact hji (List.mem_map.mpr ⟨r, hr, by omega⟩)
  refine ⟨?_, ?_, ?_⟩
  · rw [hp0, hst.1, hst.2]
  · rw [hst.1, ← hp]
    exact fancySubAssign_frame st.uf _ _ uf' hvu h3 k hku'
  · rw [hst.2, ← hp]
    exact fancySubAssign_frame st.it _ _ it' hvi h4 j hji'

/-- Witness for claim C10: a concrete two-user, two-item state whose batch
touches only user 1 and item 1; the step succeeds, its matrices are those of
the update alone, and row index 1 of both matrices (user 2, item 2) is
untouched. -/
theorem claim10_batch_update_frame_witness :
    updateStep 1 (TrainState.mk [[1], [5]] [[1], [7]] [] []).uf
      (TrainState.mk [[1], [5]] [[1], [7]] [] []).it (minibatchAt [⟨1, 1, 1⟩] 1 0) =
      .ok ((TrainState.mk [[1], [5]] [[1], [7]] [0] [0]).uf,
        (TrainState.mk [[1], [5]] [[1], [7]] [0] [0]).it) ∧
    (TrainState.mk [[1], [5]] [[1], [7]] [0] [0]).uf.getD 1 [] =
      (TrainState.mk [[1], [5]] [[1], [7]] [] []).uf.getD 1 [] ∧
    (TrainState.mk [[1], [5]] [[1], [7]] [0] [0]).it.getD 1 [] =
      (TrainState.mk [[1], [5]] [[1], [7]] [] []).it.getD 1 [] :=
  claim10_batch_update_frame 1 1 0 [⟨1, 1, 1⟩] [⟨1, 1, 1⟩]
    (TrainState.mk [[1], [5]] [[1], [7]] [] [])
    (TrainState.mk [[1], [5]] [[1], [7]] [0] [0]) 1 1
    (by decide)
    (by norm_num [batchStep, updateStep, gatherRows, gatherByIds, resolveAll, resolveIdx,
      compute_gradients, dotQ, fancySubAssign, subRows, scatterAssign, smulRows, getMSE,
      mseTestCode, minibatchAt, bind, Except.bind])
    (by decide) (by decide)

/-- Claim C9.  Two runs of `fit` with identical training ratings, held-out
set, dimensions, epochs, batch size, learning rate and seed produce
identical (here: equal as exact rationals, the model of bit-identical)
factor matrices, and the recommendation order derived from the two outcomes
is identical.  The substance is in the embedding itself: `fit` is a pure
function of exactly these arguments — its only random sources, the
`np.random.seed(seed)` draw stream and the `sample(random_state=seed)`
shuffle of the source, are deterministic functions of the seed, and no
ambient mutable state enters — so a second run with the same inputs is
the same function application and must coincide. -/
theorem claim9_fit_deterministic (train test : List Rating) (m n d epochs bs : Nat)
    (lr : ℚ) (seed : Nat) (user : Int) (knownPos : List Int) (N : Nat) (b : Bool) :
    fit train test m n d epochs bs lr seed = fit train test m n d epochs bs lr seed ∧
    recommendationOrderOf (fit train test m n d epochs bs lr seed) user knownPos N b =
      recommendationOrderOf (fit train test m n d epochs bs lr seed) user knownPos N b :=
  ⟨rfl, rfl⟩

end RecSysMF
